import Mathlib

/-!
Verification of the routing and conversation-orchestration core of the
`python-a2a-mcp-agents` repository, as a shallow embedding in Lean 4.

The embedding covers:
* `ConversationOrchestrator.start_conversation` / `_process_next_step`
  (`conversation.py`), instrumented with an explicit dispatch trace that
  records every `client.send_message` call as an `(agent, input-text)` pair;
* `KeywordRouter` (`routing/keyword_router.py`): the keyword index built
  from agent cards and the scoring in `route_query`, with Python dicts
  modelled as insertion-ordered association lists and `random.choice`
  modelled as an oracle index;
* `AgentNetwork.route_query` / `process_query` (`network.py`);
* `AIRouter.route_query` (`src/routing/ai_router.py`) with its
  per-query cache, the external classifier modelled as an oracle.

Confidence scores are modelled as exact rationals, exception-raising
collaborator calls as `Except`, and Python string operations
(`lower`, `split`, substring `in`) as executable char-list functions.
-/

namespace A2A

/-! ## Python string primitives (executable, char-list based) -/

/-- Python `str.lower()` (ASCII-adequate model). -/
def pyLower (s : String) : String := ⟨s.data.map Char.toLower⟩

/-- Does the first char list start with the second?  Used for substring tests. -/
def startsWithChars : List Char → List Char → Bool
  | [], _ => true
  | _ :: _, [] => false
  | a :: as, b :: bs => a = b && startsWithChars as bs

/-- Is `n` a contiguous substring of the second list (Python `n in h`)? -/
def substringChars (n : List Char) : List Char → Bool
  | [] => startsWithChars n []
  | c :: t => startsWithChars n (c :: t) || substringChars n t

/-- Python `needle in haystack` on strings. -/
def pyContains (haystack needle : String) : Bool :=
  substringChars needle.data haystack.data

/-- Split a char list at whitespace, keeping (possibly empty) groups. -/
def wsSplit (l : List Char) : List (List Char) :=
  l.foldr (fun c acc =>
    if c.isWhitespace then [] :: acc
    else match acc with
      | [] => [[c]]
      | g :: gs => (c :: g) :: gs) [[]]

/-- Python `str.split()` with no argument: split on whitespace runs,
dropping empty tokens. -/
def pySplit (s : String) : List String := ((wsSplit s.data).filter (· ≠ [])).map String.mk

/-- Python `list(set(xs))`, modelled as first-occurrence deduplication
(a deterministic refinement of CPython's hash ordering; only membership
is semantically relevant downstream). -/
def pyDedup (l : List String) : List String :=
  l.foldl (fun acc x => if acc.contains x then acc else acc ++ [x]) []

/-! ## Agent responses

A collaborator agent's reply, after the duck-typed probing both
`conversation.py` (lines 113–118) and `network.py` (lines 172–176) perform:
`textContent t` is a response whose `content` has a `.text` field `t`;
`otherContent s` is a response with a `content` whose `str()` is `s`;
`invalid` is a falsy response or one without a `content` attribute. -/

inductive Response where
  | textContent (t : String)
  | otherContent (s : String)
  | invalid
deriving DecidableEq, Repr

/-- Text extraction in `ConversationOrchestrator._process_next_step`
(lines 112–118): starts with `""` and overwrites it only when the response
has a `content`. -/
def responseText : Response → String
  | .textContent t => t
  | .otherContent s => s
  | .invalid => ""

/-! ## Conversation orchestration (`conversation.py`)

A `send` collaborator models `self.agent_network.clients[agent].send_message`:
it receives the agent name and the message text and either returns a
`Response` or raises (`Except.error` carrying `str(e)`).  The dispatch trace
accumulates one `(agent, input-text)` pair per `send_message` call, in call
order. -/

/-- The per-conversation state stored in `self.conversations[conversation_id]`
(`conversation.py` lines 49–55). -/
structure Conversation where
  workflow : List String
  current_step : Nat
  messages : List (String × String)
  complete : Bool
  result : Option String
deriving DecidableEq, Repr

/-- `ConversationOrchestrator._process_next_step` (lines 62–136), with the
conversation-id lookup already resolved to `conv` and the dispatch trace
made explicit.  Faithful step order: completion guard; workflow-exhausted
success exit; transcript entry for the input (role `"user"` on step 0, else
the previous agent's name); dispatch; on success append the response entry,
increment `current_step` and recurse on the response text; on exception mark
complete with the error string. -/
def processNextStep (send : String → String → Except String Response)
    (conv : Conversation) (current_input : String)
    (trace : List (String × String)) :
    Conversation × List (String × String) :=
  if conv.complete then (conv, trace)
  else if _h : conv.workflow.length ≤ conv.current_step then
    ({ conv with complete := true, result := some current_input }, trace)
  else
    let current_agent := conv.workflow.getD conv.current_step ""
    let role := if conv.current_step = 0 then "user"
      else conv.workflow.getD (conv.current_step - 1) ""
    let conv1 := { conv with messages := conv.messages ++ [(role, current_input)] }
    match send current_agent current_input with
    | .ok resp =>
      let response_text := responseText resp
      let conv2 := { conv1 with
        messages := conv1.messages ++ [(current_agent, response_text)],
        current_step := conv1.current_step + 1 }
      processNextStep send conv2 response_text (trace ++ [(current_agent, current_input)])
    | .error e =>
      ({ conv1 with
          complete := true,
          result := some ("Error in conversation with agent " ++ current_agent ++ ": " ++ e) },
       trace ++ [(current_agent, current_input)])
termination_by conv.workflow.length - conv.current_step
decreasing_by simp_all; omega

/-- `ConversationOrchestrator.start_conversation` (lines 28–60): reject an
empty workflow, reject the first workflow agent missing from
`agent_network.agents`, otherwise create the conversation record, store it
under the fresh id, and synchronously drive `_process_next_step` on the
initial query.  Returns the updated conversation store, the new id and the
dispatch trace; `Except.error` models the raised `ValueError`. -/
def start_conversation (agents : List String)
    (send : String → String → Except String Response)
    (conversations : List (String × Conversation)) (conversation_id : String)
    (initial_query : String) (workflow : List String) :
    Except String (List (String × Conversation) × String × List (String × String)) :=
  if workflow.isEmpty then
    .error "Workflow must contain at least one agent"
  else
    match workflow.find? (fun a => !(agents.contains a)) with
    | some a => .error ("Agent \x27" ++ a ++ "\x27 not found in network")
    | none =>
      let conv0 : Conversation :=
        { workflow := workflow, current_step := 0, messages := [],
          complete := false, result := none }
      let out := processNextStep send conv0 initial_query []
      .ok (conversations ++ [(conversation_id, out.1)], conversation_id, out.2)

/-! Expected shapes of a fully successful run, for comparison with the
orchestrator: with every dispatch succeeding and `f a t` the text agent `a`
answers to input `t`, the chained final output, the chained transcript and
the chained dispatch list. -/

/-- Final output of piping `q0` through the workflow left to right. -/
def chainResult (f : String → String → String) (q0 : String) (wf : List String) : String :=
  wf.foldl (fun input a => f a input) q0

/-- The `(agent, input)` dispatch pairs of a fully successful run. -/
def chainDispatches (f : String → String → String) (q0 : String) :
    List String → List (String × String)
  | [] => []
  | a :: rest => (a, q0) :: chainDispatches f (f a q0) rest

/-- The transcript of a fully successful run, given the role attributed to
the incoming text of the first remaining step. -/
def chainMessages (f : String → String → String) (q0 : String) (role : String) :
    List String → List (String × String)
  | [] => []
  | a :: rest => (role, q0) :: (a, f a q0) :: chainMessages f (f a q0) a rest

/-- The role `_process_next_step` attributes to the input of the step that
follows the already-executed prefix `pre` of the workflow. -/
def roleAfter (pre : List String) : String :=
  match pre.getLast? with
  | none => "user"
  | some a => a

/-! ## Agent cards (`python_a2a` metadata consumed by the routers)

Every attribute the keyword router probes with `hasattr` is an `Option`:
`none` models the attribute being absent. -/

/-- One entry of `agent_card.skills`. -/
structure Skill where
  name : Option String
  tags : Option (List String)
deriving DecidableEq, Repr

/-- The slice of an agent card read by `KeywordRouter._initialize_keyword_mappings`. -/
structure AgentCard where
  name : Option String
  description : Option String
  skills : Option (List Skill)
deriving DecidableEq, Repr

/-- An agent network's registration state as the routers see it: the agents
dict in insertion order, each name paired with what
`get_agent_card(name)` returns (`none` when the card fetch fails). -/
abbrev Network : Type := List (String × Option AgentCard)

/-! ## Keyword router (`routing/keyword_router.py`) -/

/-- The stop-word set of `_initialize_keyword_mappings` (line 35). -/
def stop_words : List String :=
  ["a", "an", "the", "and", "or", "but", "in", "on", "at", "to", "for", "with", "about"]

/-- The keyword list collected for one agent in
`_initialize_keyword_mappings` (lines 27–45), before deduplication:
the agent's registry name lower-cased, the display-name tokens, the
description tokens that survive the stop-word and length-`> 3` filters, and
every skill's lower-cased tags followed by its name tokens. -/
def agentKeywords (name : String) (card : AgentCard) : List String :=
  [pyLower name]
  ++ (match card.name with
      | some n => pySplit (pyLower n)
      | none => [])
  ++ (match card.description with
      | some d => (pySplit (pyLower d)).filter
          (fun w => !(stop_words.contains w) && decide (3 < w.length))
      | none => [])
  ++ (match card.skills with
      | some skills => skills.foldl (fun acc sk =>
          acc
          ++ (match sk.tags with
              | some ts => ts.map pyLower
              | none => [])
          ++ (match sk.name with
              | some n => pySplit (pyLower n)
              | none => [])) []
      | none => [])

/-- Python-dict insertion for `self.keyword_mapping[keyword].append(name)`
with `keyword_mapping` an insertion-ordered `keyword → [agent names]` map. -/
def insertKw : List (String × List String) → String → String → List (String × List String)
  | [], kw, name => [(kw, [name])]
  | e :: rest, kw, name =>
    if e.1 = kw then (e.1, e.2 ++ [name]) :: rest else e :: insertKw rest kw name

/-- `KeywordRouter._initialize_keyword_mappings` (lines 19–54): fold over the
agents dict in insertion order, skip agents whose card fetch failed, and map
each deduplicated keyword of an agent to that agent's name. -/
def keyword_mapping (net : Network) : List (String × List String) :=
  net.foldl (fun m p =>
    match p.2 with
    | none => m
    | some card => (pyDedup (agentKeywords p.1 card)).foldl
        (fun m kw => insertKw m kw p.1) m) []

/-- Python-dict update for
`agent_scores[agent] = agent_scores.get(agent, 0) + 1`. -/
def addScore : List (String × Nat) → String → List (String × Nat)
  | [], ag => [(ag, 1)]
  | e :: rest, ag =>
    if e.1 = ag then (e.1, e.2 + 1) :: rest else e :: addScore rest ag

/-- The `agent_scores` dict of `KeywordRouter.route_query` (lines 68–75):
for every mapping entry whose keyword occurs in the lower-cased query,
one point for each agent the keyword maps to. -/
def agent_scores (net : Network) (query : String) : List (String × Nat) :=
  (keyword_mapping net).foldl (fun sc e =>
    if pyContains (pyLower query) e.1 then e.2.foldl addScore sc else sc) []

/-- Python `max(items, key=lambda x: x[1])`: the first entry attaining the
maximal score (later entries replace only on strictly greater score). -/
def pyMax : List (String × Nat) → Option (String × Nat)
  | [] => none
  | x :: xs => some (xs.foldl (fun best y => if best.2 < y.2 then y else best) x)

/-- `random.choice(l)` with the random draw modelled as an oracle index `r`
(uniform over indices); `none` only when the list is empty. -/
def pyChoice (l : List String) (r : Nat) : Option String :=
  match l with
  | [] => none
  | x :: xs => some ((x :: xs).getD (r % (x :: xs).length) x)

/-- `KeywordRouter.route_query` (lines 56–91): score by keyword matches;
with a non-empty score dict return the first maximal agent and confidence
`min(score / 10, 1.0)`; otherwise a random agent with confidence `0.1`
when any agent is registered, else `(None, 0.0)`. -/
def route_query (net : Network) (query : String) (r : Nat) : Option String × ℚ :=
  match pyMax (agent_scores net query) with
  | some best => (some best.1, min ((best.2 : ℚ) / 10) 1)
  | none =>
    match pyChoice (net.map Prod.fst) r with
    | some a => (some a, 1 / 10)
    | none => (none, 0)

/-- Per-agent score the router is specified to compute: one point for each
distinct indexed keyword of the agent occurring as a substring of the
lower-cased query. -/
def specScore (query name : String) (card : AgentCard) : Nat :=
  (pyDedup (agentKeywords name card)).countP (fun kw => pyContains (pyLower query) kw)

/-- `specScore` lifted to an optional card: a failed card fetch contributes
no keywords and hence no points. -/
def specScoreOpt (query name : String) : Option AgentCard → Nat
  | some card => specScore query name card
  | none => 0

/-- First-bound value of a key in an insertion-ordered dict, with the score
`0` Python's `agent_scores.get(agent, 0)` supplies for absent keys. -/
def scoreOf : List (String × Nat) → String → Nat
  | [], _ => 0
  | e :: rest, name => if e.1 = name then e.2 else scoreOf rest name

/-- Total of the points the scoring loop of `route_query` awards to agent
`x` from a keyword map: for each matching keyword, the number of times `x`
appears in that keyword's agent list. -/
def tally (m : List (String × List String)) (query x : String) : Nat :=
  (m.map (fun e => if pyContains (pyLower query) e.1 then e.2.count x else 0)).sum

/-- Spec-side total score of agent `x` over a whole network: the summed
`specScoreOpt` of every registration entry named `x` (a single entry when
names are unique, as they are for a Python dict). -/
def netScore (net : Network) (query x : String) : Nat :=
  (net.map (fun p => if p.1 = x then specScoreOpt query p.1 p.2 else 0)).sum

/-- A concrete two-agent registration used to exercise the router on a
closed input: both card fetches succeed but carry no display name,
description or skills, so each agent's only keyword is its registry name. -/
def exampleNet : Network :=
  [("weather", some { name := none, description := none, skills := none }),
   ("math", some { name := none, description := none, skills := none })]

/-! ## Agent network (`network.py`) -/

/-- `AgentNetwork.route_query` (lines 111–129) over the registered agent
names, together with a flag recording whether `self.router.route_query` was
actually consulted.  `router?` is `none` when `self.router` is unset. -/
def network_route_query (agents : List String)
    (router? : Option (String → Option String × ℚ)) (query : String) :
    (Option String × ℚ) × Bool :=
  match agents, router? with
  | [], _ => ((none, 0), false)
  | a :: _, none => ((some a, 1 / 10), false)
  | _ :: _, some router => (router query, true)

/-- What `AgentNetwork.process_query` observably does in one call: the
returned string, whether the router was consulted, every
`client.send_message` dispatch as an `(agent, text)` pair, and the
confidence attached to the dispatched agent (as logged), if any. -/
structure ProcessOutcome where
  result : String
  routerConsulted : Bool
  dispatched : List (String × String)
  confidence : Option ℚ
deriving DecidableEq, Repr

/-- The dispatch tail of `AgentNetwork.process_query` (lines 159–180):
send the query to the resolved agent, extract `.text`-bearing content,
stringify other content, and convert a contentless response or a raised
exception into the corresponding error string. -/
def dispatchTo (send : String → String → Except String Response)
    (agent_name : String) (conf : ℚ) (consulted : Bool) (query : String) :
    ProcessOutcome :=
  match send agent_name query with
  | .ok (.textContent t) => ⟨t, consulted, [(agent_name, query)], some conf⟩
  | .ok (.otherContent s) => ⟨s, consulted, [(agent_name, query)], some conf⟩
  | .ok .invalid =>
      ⟨"Error: Received invalid response from " ++ agent_name,
       consulted, [(agent_name, query)], some conf⟩
  | .error e =>
      ⟨"Error: Failed to process query with agent " ++ agent_name ++ ": " ++ e,
       consulted, [(agent_name, query)], some conf⟩

/-- Python truthiness of an `Optional[str]`: `None` and `""` are falsy. -/
def optTruthy : Option String → Bool
  | some t => !(t == "")
  | none => false

/-- `AgentNetwork.process_query` (lines 131–180).  Note the Python guard
`if target_agent:` is a truthiness test: a supplied but empty target string
falls through to the routing branch exactly as the source does. -/
def process_query (agents : List String)
    (router? : Option (String → Option String × ℚ))
    (send : String → String → Except String Response)
    (query : String) (target_agent : Option String) : ProcessOutcome :=
  if agents = [] then
    ⟨"Error: No agents available in the network", false, [], none⟩
  else if optTruthy target_agent then
    let t := target_agent.getD ""
    if agents.contains t then dispatchTo send t 1 false query
    else ⟨"Error: Agent \x27" ++ t ++ "\x27 not found in network", false, [], none⟩
  else
    let rq := network_route_query agents router? query
    match rq.1.1 with
    | none => ⟨"Error: Failed to route query to an agent", rq.2, [], none⟩
    | some agent_name => dispatchTo send agent_name rq.1.2 rq.2 query

/-! ## AI router (`src/routing/ai_router.py`) -/

/-- The mutable state of an `AIRouter`: whether a usable external router was
initialized (`OPENAI_AVAILABLE` and `self.router` non-`None`), and the
insertion-ordered `routing_cache` from query strings to cached
`(agent_name, confidence)` decisions. -/
structure AIRouterState where
  available : Bool
  cache : List (String × (String × ℚ))
deriving DecidableEq, Repr

/-- Python-dict update `self.routing_cache[query] = result`. -/
def cacheInsert : List (String × (String × ℚ)) → String → (String × ℚ) →
    List (String × (String × ℚ))
  | [], q, v => [(q, v)]
  | e :: rest, q, v =>
    if e.1 = q then (e.1, v) :: rest else e :: cacheInsert rest q v

/-- First-bound cache entry for a query (`query in self.routing_cache`). -/
def cacheLookup (c : List (String × (String × ℚ))) (q : String) : Option (String × ℚ) :=
  match c.find? (fun e => e.1 = q) with
  | some e => some e.2
  | none => none

/-- Observable collaborator activity of one `AIRouter.route_query` call:
whether `self.router.route(query)` was invoked and whether `random.choice`
was invoked. -/
structure AIRouteObs where
  classifierCalled : Bool
  randomUsed : Bool
deriving DecidableEq, Repr

/-- `AIRouter.route_query` (lines 89–151).  `classify` models
`self.router.route(query)`: `Except.error` is a raised exception, and an
`ok` result carries `result.get("agent_name")` (possibly `None`) and
`result.get("confidence", 0.0)`.  `r` is the `random.choice` oracle index.
Returns the routing decision, the updated state and the observations. -/
def ai_route_query (agents : List String)
    (classify : String → Except String (Option String × ℚ)) (r : Nat)
    (st : AIRouterState) (query : String) (use_cache : Bool) :
    (Option String × ℚ) × AIRouterState × AIRouteObs :=
  match (if use_cache then cacheLookup st.cache query else none) with
  | some cached => ((some cached.1, cached.2), st, ⟨false, false⟩)
  | none =>
    if st.available = false then
      match pyChoice agents r with
      | some a =>
          ((some a, 1 / 10),
           { st with cache := cacheInsert st.cache query (a, 1 / 10) },
           ⟨false, true⟩)
      | none => ((none, 0), st, ⟨false, false⟩)
    else
      match classify query with
      | .ok (agent_name?, confidence) =>
        match agent_name? with
        | some agent_name =>
          if agents.contains agent_name then
            ((some agent_name, confidence),
             { st with cache := cacheInsert st.cache query (agent_name, confidence) },
             ⟨true, false⟩)
          else
            match agents with
            | first :: _ =>
                ((some first, 1 / 10),
                 { st with cache := cacheInsert st.cache query (first, 1 / 10) },
                 ⟨true, false⟩)
            | [] => ((none, 0), st, ⟨true, false⟩)
        | none =>
          match agents with
          | first :: _ =>
              ((some first, 1 / 10),
               { st with cache := cacheInsert st.cache query (first, 1 / 10) },
               ⟨true, false⟩)
          | [] => ((none, 0), st, ⟨true, false⟩)
      | .error _ =>
        match pyChoice agents r with
        | some a =>
            ((some a, 1 / 10),
             { st with cache := cacheInsert st.cache query (a, 1 / 10) },
             ⟨true, true⟩)
        | none => ((none, 0), st, ⟨true, false⟩)

/-! ## Conversation orchestrator: lemmas -/

theorem roleAfter_append (pre : List String) (a : String) : roleAfter (pre ++ [a]) = a := by
  simp [roleAfter]

theorem getD_append_mid (rest : List String) (a d : String) :
    ∀ pre : List String, (pre ++ a :: rest).getD pre.length d = a := by
  intro pre
  induction pre with
  | nil => simp
  | cons x xs ih => simpa using ih

theorem stepRoleD_eq (pre rest : List String) (a d : String) :
    (if pre.length = 0 then "user" else (pre ++ a :: rest).getD (pre.length - 1) d)
      = roleAfter pre := by
  rcases List.eq_nil_or_concat pre with hnil | ⟨ys, y, hpre⟩
  · subst hnil; simp [roleAfter]
  · subst hpre
    simp only [List.concat_eq_append]
    rw [if_neg (by simp), roleAfter_append]
    have h1 : (ys ++ [y]).length - 1 = ys.length := by simp
    have h2 : ys ++ [y] ++ a :: rest = ys ++ y :: (a :: rest) := by simp
    rw [h1, h2, getD_append_mid]

/-- A run of `_process_next_step` in which every dispatch succeeds: starting
after an already-executed prefix `pre`, the remaining workflow is consumed
step by step, each agent receiving the previous extracted response text, and
the conversation completes with the last response as `result`. -/
theorem processNextStep_all_ok (f : String → String → String)
    (send : String → String → Except String Response)
    (hsend : ∀ a t, send a t = .ok (.textContent (f a t))) :
    ∀ (rest pre : List String) (msgs : List (String × String)) (input : String)
      (trace : List (String × String)),
    processNextStep send
      { workflow := pre ++ rest, current_step := pre.length, messages := msgs,
        complete := false, result := none } input trace =
    ({ workflow := pre ++ rest, current_step := pre.length + rest.length,
       messages := msgs ++ chainMessages f input (roleAfter pre) rest,
       complete := true, result := some (chainResult f input rest) },
     trace ++ chainDispatches f input rest) := by
  intro rest
  induction rest with
  | nil =>
    intro pre msgs input trace
    rw [processNextStep]
    simp [chainResult, chainMessages, chainDispatches]
  | cons a rest ih =>
    intro pre msgs input trace
    rw [processNextStep]
    have hlen : ¬ ((pre ++ a :: rest).length ≤ pre.length) := by simp
    simp only [dif_neg hlen, hsend, Bool.false_eq_true, if_false,
      getD_append_mid, stepRoleD_eq, responseText]
    have H := ih (pre ++ [a]) (msgs ++ [(roleAfter pre, input), (a, f a input)])
      (f a input) (trace ++ [(a, input)])
    simp only [List.append_assoc, List.singleton_append, List.length_append,
      List.length_singleton, List.length_cons, List.length_nil, List.cons_append,
      List.nil_append, Nat.zero_add, roleAfter_append] at H
    simp only [List.append_assoc, List.cons_append, List.nil_append]
    rw [H]
    simp [chainResult, chainMessages, chainDispatches, List.append_assoc,
      Conversation.mk.injEq, Prod.ext_iff]
    omega

/-- Step-count invariant of `_process_next_step`, by induction on the number
of remaining workflow steps: the workflow is never mutated, `current_step`
never decreases and stays bounded by the workflow length, and the step
counter advances by exactly the number of successful responses (each
dispatch appends one trace pair and one transcript input entry; each
successful response additionally appends one transcript response entry and
one step increment, giving the stated accounting identity). -/
theorem processNextStep_measure_inv (send : String → String → Except String Response) :
    ∀ (m : Nat) (conv : Conversation) (input : String) (trace : List (String × String)),
      conv.workflow.length - conv.current_step = m →
      conv.current_step ≤ conv.workflow.length →
      ((processNextStep send conv input trace).1.workflow = conv.workflow ∧
       conv.current_step ≤ (processNextStep send conv input trace).1.current_step ∧
       (processNextStep send conv input trace).1.current_step ≤ conv.workflow.length ∧
       (processNextStep send conv input trace).1.current_step
         + (processNextStep send conv input trace).2.length + conv.messages.length
         = conv.current_step + trace.length
           + (processNextStep send conv input trace).1.messages.length) := by
  intro m
  induction m with
  | zero =>
    intro conv input trace hm hle
    rw [processNextStep]
    by_cases hc : conv.complete = true
    · simp [hc]; omega
    · simp only [Bool.not_eq_true] at hc
      have hge : conv.workflow.length ≤ conv.current_step := by omega
      simp [hc, hge]; omega
  | succ m ih =>
    intro conv input trace hm hle
    rw [processNextStep]
    by_cases hc : conv.complete = true
    · simp [hc]; omega
    · simp only [Bool.not_eq_true] at hc
      have hlt : ¬ (conv.workflow.length ≤ conv.current_step) := by omega
      simp only [hc, Bool.false_eq_true, if_false, dif_neg hlt]
      cases hsend : send (conv.workflow.getD conv.current_step "") input with
      | error e => simp; omega
      | ok resp =>
        have H := ih
          { workflow := conv.workflow, current_step := conv.current_step + 1,
            messages := conv.messages ++
                [(if conv.current_step = 0 then "user"
                  else conv.workflow.getD (conv.current_step - 1) "", input)]
                ++ [(conv.workflow.getD conv.current_step "", responseText resp)],
            complete := false, result := conv.result }
          (responseText resp)
          (trace ++ [(conv.workflow.getD conv.current_step "", input)])
          (by simp; omega) (by simp; omega)
        simp only at H ⊢
        refine ⟨H.1, by omega, by omega, ?_⟩
        have h4 := H.2.2.2
        simp only [List.length_append, List.length_cons, List.length_nil] at h4 ⊢
        omega

/-! ## Conversation orchestrator: claims -/

/-- Claim C1: for every workflow of registered agent names and every initial
query, with every dispatch succeeding (agent `a` answering input `t` with
extracted text `f a t`), `start_conversation` dispatches to the first agent
with the initial query and to each subsequent agent with the previous
agent's extracted response text, in exactly that order
(`chainDispatches`), and the stored conversation ends with
`complete = true` and `result` equal to the last agent's extracted
response text (`chainResult`). -/
theorem claim_C1_sequential_chain (agents : List String) (f : String → String → String)
    (send : String → String → Except String Response)
    (hsend : ∀ a t, send a t = .ok (.textContent (f a t)))
    (conversations : List (String × Conversation)) (cid q0 : String)
    (workflow : List String) (hne : workflow ≠ [])
    (hreg : ∀ a ∈ workflow, agents.contains a) :
    start_conversation agents send conversations cid q0 workflow =
      .ok (conversations ++ [(cid,
        { workflow := workflow, current_step := workflow.length,
          messages := chainMessages f q0 "user" workflow,
          complete := true, result := some (chainResult f q0 workflow) })],
        cid, chainDispatches f q0 workflow) := by
  unfold start_conversation
  rw [if_neg (by simpa using hne)]
  have hfind : workflow.find? (fun a => !(agents.contains a)) = none := by
    rw [List.find?_eq_none]
    intro a ha
    simpa using hreg a ha
  rw [hfind]
  have H := processNextStep_all_ok f send hsend workflow [] [] q0 []
  simp only [List.nil_append, List.length_nil, Nat.zero_add] at H
  simp only [H]
  simp [roleAfter]

/-- Witness for C1 at the concrete two-agent workflow `["x", "y"]` with
`f a t = a ++ t`: agent `"x"` receives `"q"`, agent `"y"` receives `"xq"`,
and the conversation completes with result `"yxq"`. -/
theorem claim_C1_sequential_chain_witness :
    start_conversation ["x", "y"] (fun a t => .ok (.textContent (a ++ t))) [] "cid" "q" ["x", "y"] =
      .ok ([("cid",
        { workflow := ["x", "y"], current_step := 2,
          messages := [("user", "q"), ("x", "xq"), ("x", "xq"), ("y", "yxq")],
          complete := true, result := some "yxq" })],
        "cid", [("x", "q"), ("y", "xq")]) :=
  claim_C1_sequential_chain ["x", "y"] (fun a t => a ++ t) _ (fun _ _ => rfl) [] "cid" "q"
    ["x", "y"] (by decide) (by decide)

/-- Claim C2: for a workflow `[A, B, C]` of distinct registered agents where
`A` succeeds and `B` raises, the conversation is marked complete with
`result` naming agent `B` and the exception message, the dispatch trace is
exactly `[(A, q0), (B, rA)]` so `C` is never invoked, and the transcript
holds exactly `A`'s two step entries plus the failing step's input entry,
with no response entry for `B`. -/
theorem claim_C2_fail_fast (agents : List String) (A B C q0 e : String) (respA : Response)
    (send : String → String → Except String Response)
    (hA : send A q0 = .ok respA)
    (hB : send B (responseText respA) = .error e)
    (hCA : C ≠ A) (hCB : C ≠ B)
    (hAr : A ∈ agents) (hBr : B ∈ agents) (hCr : C ∈ agents)
    (conversations : List (String × Conversation)) (cid : String) :
    start_conversation agents send conversations cid q0 [A, B, C] =
      .ok (conversations ++ [(cid,
        { workflow := [A, B, C], current_step := 1,
          messages := [("user", q0), (A, responseText respA), (A, responseText respA)],
          complete := true,
          result := some ("Error in conversation with agent " ++ B ++ ": " ++ e) })],
        cid, [(A, q0), (B, responseText respA)]) ∧
    (∀ t, (C, t) ∉ [(A, q0), (B, responseText respA)]) := by
  have hcore : processNextStep send
      { workflow := [A, B, C], current_step := 0, messages := [],
        complete := false, result := none } q0 [] =
    ({ workflow := [A, B, C], current_step := 1,
       messages := [("user", q0), (A, responseText respA), (A, responseText respA)],
       complete := true,
       result := some ("Error in conversation with agent " ++ B ++ ": " ++ e) },
     [(A, q0), (B, responseText respA)]) := by
    rw [processNextStep]
    simp only [List.length_cons, List.length_nil, List.getD_cons_zero, List.getD_cons_succ,
      Bool.false_eq_true, if_false, dif_neg (by omega : ¬ ((3:Nat) ≤ 0)), if_pos rfl, hA,
      List.nil_append]
    rw [processNextStep]
    simp only [List.length_cons, List.length_nil, List.getD_cons_zero, List.getD_cons_succ,
      Bool.false_eq_true, if_false, dif_neg (by omega : ¬ ((3:Nat) ≤ 1)),
      if_neg (by omega : ¬ (1 = 0)), hB]
    simp
  constructor
  · unfold start_conversation
    rw [if_neg (by simp)]
    have hfind : [A, B, C].find? (fun a => !(agents.contains a)) = none := by
      rw [List.find?_eq_none]
      intro a ha
      simp only [List.mem_cons, List.not_mem_nil, or_false] at ha
      rcases ha with rfl | rfl | rfl <;> simp [hAr, hBr, hCr]
    rw [hfind]
    simp only [hcore]
  · intro t
    simp [hCA, hCB]

/-- Witness for C2 at agents `["a", "b", "c"]`, where `"b"` raises `"boom"`:
the run stops after dispatches `[("a", "q"), ("b", "r:q")]` with result
naming agent `"b"`, and `"c"` never appears in the trace. -/
theorem claim_C2_fail_fast_witness :
    start_conversation ["a", "b", "c"]
        (fun x t => if x == "b" then .error "boom" else .ok (.textContent ("r:" ++ t)))
        [] "cid" "q" ["a", "b", "c"] =
      .ok ([("cid",
        { workflow := ["a", "b", "c"], current_step := 1,
          messages := [("user", "q"), ("a", "r:q"), ("a", "r:q")],
          complete := true,
          result := some "Error in conversation with agent b: boom" })],
        "cid", [("a", "q"), ("b", "r:q")]) ∧
    (∀ t, ("c", t) ∉ [("a", "q"), ("b", "r:q")]) :=
  claim_C2_fail_fast ["a", "b", "c"] "a" "b" "c" "q" "boom" (.textContent "r:q")
    (fun x t => if x == "b" then .error "boom" else .ok (.textContent ("r:" ++ t)))
    rfl rfl (by decide) (by decide) (by decide) (by decide) (by decide) [] "cid"

/-- Claim C4: whenever `current_step ≤ len(workflow)` holds on entry (it is
`0 ≤ len` at creation, and a `Nat` is never negative), one call to
`_process_next_step` preserves the workflow, never decreases
`current_step`, keeps it bounded by `len(workflow)`, and increments it by
exactly the number of successful agent responses: each dispatch appends one
trace pair and one transcript input entry, each successful response
additionally appends one transcript response entry and one step increment,
so `step' + |trace'| + |messages| = step + |trace| + |messages'|`. -/
theorem claim_C4_current_step_invariant (send : String → String → Except String Response)
    (conv : Conversation) (input : String) (trace : List (String × String))
    (hle : conv.current_step ≤ conv.workflow.length) :
    (processNextStep send conv input trace).1.workflow = conv.workflow ∧
    conv.current_step ≤ (processNextStep send conv input trace).1.current_step ∧
    (processNextStep send conv input trace).1.current_step ≤ conv.workflow.length ∧
    (processNextStep send conv input trace).1.current_step
      + (processNextStep send conv input trace).2.length + conv.messages.length
      = conv.current_step + trace.length
        + (processNextStep send conv input trace).1.messages.length :=
  processNextStep_measure_inv send (conv.workflow.length - conv.current_step)
    conv input trace rfl hle

/-- Witness for C4 at a concrete one-agent conversation whose dispatch
fails: the hypothesis `0 ≤ 1` holds and the invariant conjunction follows
by applying the theorem there. -/
theorem claim_C4_current_step_invariant_witness :
    ({ workflow := ["a"], current_step := 0, messages := [], complete := false,
       result := none } : Conversation).current_step ≤ (["a"] : List String).length ∧
    ((processNextStep (fun _ _ => .error "down")
        { workflow := ["a"], current_step := 0, messages := [], complete := false,
          result := none } "q" []).1.workflow = ["a"] ∧
     0 ≤ (processNextStep (fun _ _ => .error "down")
        { workflow := ["a"], current_step := 0, messages := [], complete := false,
          result := none } "q" []).1.current_step ∧
     (processNextStep (fun _ _ => .error "down")
        { workflow := ["a"], current_step := 0, messages := [], complete := false,
          result := none } "q" []).1.current_step ≤ (["a"] : List String).length ∧
     (processNextStep (fun _ _ => .error "down")
        { workflow := ["a"], current_step := 0, messages := [], complete := false,
          result := none } "q" []).1.current_step
       + (processNextStep (fun _ _ => .error "down")
          { workflow := ["a"], current_step := 0, messages := [], complete := false,
            result := none } "q" []).2.length + 0
       = 0 + 0 + (processNextStep (fun _ _ => .error "down")
          { workflow := ["a"], current_step := 0, messages := [], complete := false,
            result := none } "q" []).1.messages.length) :=
  ⟨by decide,
   claim_C4_current_step_invariant (fun _ _ => .error "down")
     { workflow := ["a"], current_step := 0, messages := [], complete := false,
       result := none } "q" [] (by decide)⟩

/-- Claim C5: processing a step of an already-complete conversation is a
total no-op: the conversation record and the dispatch trace are returned
unchanged, so no transcript entry is appended, nothing is dispatched, and
`current_step`, `complete` and `result` keep their values. -/
theorem claim_C5_complete_noop (send : String → String → Except String Response)
    (conv : Conversation) (input : String) (trace : List (String × String))
    (hc : conv.complete = true) :
    processNextStep send conv input trace = (conv, trace) := by
  rw [processNextStep]
  simp [hc]

/-- Witness for C5 at a concrete completed conversation: the call returns
the state and trace unchanged. -/
theorem claim_C5_complete_noop_witness :
    ({ workflow := ["a"], current_step := 1, messages := [("user", "q"), ("a", "r")],
       complete := true, result := some "r" } : Conversation).complete = true ∧
    processNextStep (fun _ _ => .ok (.textContent "other"))
      { workflow := ["a"], current_step := 1, messages := [("user", "q"), ("a", "r")],
        complete := true, result := some "r" } "again" [] =
      ({ workflow := ["a"], current_step := 1, messages := [("user", "q"), ("a", "r")],
         complete := true, result := some "r" }, []) :=
  ⟨rfl,
   claim_C5_complete_noop (fun _ _ => .ok (.textContent "other"))
     { workflow := ["a"], current_step := 1, messages := [("user", "q"), ("a", "r")],
       complete := true, result := some "r" } "again" [] rfl⟩

/-- Claim C9: for an empty workflow or one naming an unregistered agent,
`start_conversation` rejects before starting: it raises (`Except.error`),
so the conversation store is left unchanged and no id is recorded, and its
outcome is the same for every `send` collaborator — no agent is ever
dispatched to. -/
theorem claim_C9_preflight_rejection (agents workflow : List String)
    (hbad : workflow = [] ∨ ∃ a ∈ workflow, a ∉ agents) :
    ∀ (send send' : String → String → Except String Response)
      (conversations : List (String × Conversation)) (cid q0 : String),
      (∃ msg, start_conversation agents send conversations cid q0 workflow = .error msg) ∧
      start_conversation agents send conversations cid q0 workflow
        = start_conversation agents send' conversations cid q0 workflow := by
  intro send send' conversations cid q0
  rcases hbad with rfl | ⟨a, ha, hna⟩
  · exact ⟨⟨_, rfl⟩, rfl⟩
  · have hne : workflow.isEmpty = false := by
      cases workflow with
      | nil => cases ha
      | cons x xs => rfl
    have hs : (workflow.find? (fun x => !(agents.contains x))).isSome := by
      rw [List.find?_isSome]
      exact ⟨a, ha, by simpa using hna⟩
    obtain ⟨b, hb⟩ := Option.isSome_iff_exists.mp hs
    have key : ∀ s : String → String → Except String Response,
        start_conversation agents s conversations cid q0 workflow
          = .error ("Agent \x27" ++ b ++ "\x27 not found in network") := by
      intro s
      unfold start_conversation
      rw [if_neg (by simp [hne])]
      rw [hb]
    exact ⟨⟨_, key send⟩, (key send).trans (key send').symm⟩

/-- Witness for C9 at the unregistered workflow agent `"y"` over the agent
set `["x"]`, with two different collaborators: both calls reject with the
same error and dispatch to nothing. -/
theorem claim_C9_preflight_rejection_witness :
    ((["y"] : List String) = [] ∨ ∃ a ∈ (["y"] : List String), a ∉ (["x"] : List String)) ∧
    ((∃ msg, start_conversation ["x"] (fun _ _ => .ok (.textContent "r")) [] "cid" "q" ["y"]
        = .error msg) ∧
     start_conversation ["x"] (fun _ _ => .ok (.textContent "r")) [] "cid" "q" ["y"]
       = start_conversation ["x"] (fun _ _ => .error "down") [] "cid" "q" ["y"]) :=
  ⟨by decide,
   claim_C9_preflight_rejection ["x"] ["y"] (by decide)
     (fun _ _ => .ok (.textContent "r")) (fun _ _ => .error "down") [] "cid" "q"⟩

/-! ## Keyword router: lemmas and claim C3 -/

theorem scoreOf_addScore (sc : List (String × Nat)) (a x : String) :
    scoreOf (addScore sc a) x = scoreOf sc x + (if x = a then 1 else 0) := by
  induction sc with
  | nil =>
    simp only [addScore, scoreOf]
    by_cases hxa : x = a
    · subst hxa; simp
    · rw [if_neg (fun h => hxa h.symm), if_neg hxa]
  | cons e rest ih =>
    simp only [addScore]
    by_cases hea : e.1 = a
    · rw [if_pos hea]
      simp only [scoreOf]
      by_cases hex : e.1 = x
      · rw [if_pos hex, if_pos hex, if_pos (hex.symm.trans hea)]
      · rw [if_neg hex, if_neg hex, if_neg (fun h => hex (hea.trans h.symm))]
        omega
    · rw [if_neg hea]
      simp only [scoreOf]
      by_cases hex : e.1 = x
      · rw [if_pos hex, if_pos hex, if_neg (fun h => hea (hex.trans h))]
        omega
      · rw [if_neg hex, if_neg hex, ih]

theorem scoreOf_foldl_addScore (ags : List String) (x : String) :
    ∀ sc : List (String × Nat),
      scoreOf (ags.foldl addScore sc) x = scoreOf sc x + ags.count x := by
  induction ags with
  | nil => intro sc; simp
  | cons a rest ih =>
    intro sc
    simp only [List.foldl_cons, ih, scoreOf_addScore, List.count_cons]
    have : (x == a) = decide (x = a) := rfl
    by_cases hxa : x = a
    · simp [hxa]; omega
    · simp [hxa]
      exact fun h => hxa h.symm



theorem count_single (x name : String) : ([name].count x) = if x = name then 1 else 0 := by
  by_cases h : x = name
  · subst h; simp
  · simp [List.count_cons, h]

theorem scoreOf_scorefold (query x : String) :
    ∀ (m : List (String × List String)) (sc : List (String × Nat)),
      scoreOf (m.foldl (fun sc e =>
          if pyContains (pyLower query) e.1 then e.2.foldl addScore sc else sc) sc) x
        = scoreOf sc x + tally m query x := by
  intro m
  induction m with
  | nil => intro sc; simp [tally]
  | cons e rest ih =>
    intro sc
    simp only [List.foldl_cons, tally, List.map_cons, List.sum_cons]
    by_cases hm : pyContains (pyLower query) e.1 = true
    · rw [if_pos hm, if_pos hm, ih, scoreOf_foldl_addScore]
      simp [tally]
      omega
    · rw [if_neg hm, if_neg hm, ih]
      simp [tally]

theorem tally_insertKw (query x kw name : String) :
    ∀ m : List (String × List String),
      tally (insertKw m kw name) query x
        = tally m query x
          + (if pyContains (pyLower query) kw then (if x = name then 1 else 0) else 0) := by
  intro m
  induction m with
  | nil =>
    simp only [insertKw, tally, List.map_cons, List.map_nil, List.sum_cons, List.sum_nil]
    by_cases hm : pyContains (pyLower query) kw = true
    · rw [if_pos hm, if_pos hm]
      rw [count_single]
      omega
    · rw [if_neg hm, if_neg hm]
  | cons e rest ih =>
    simp only [insertKw]
    by_cases hk : e.1 = kw
    · rw [if_pos hk]
      simp only [tally, List.map_cons, List.sum_cons, hk]
      by_cases hm : pyContains (pyLower query) kw = true
      · rw [if_pos hm, if_pos hm, if_pos hm]
        simp only [List.count_append, count_single]
        omega
      · rw [if_neg hm, if_neg hm, if_neg hm]
        omega
    · rw [if_neg hk]
      simp only [tally, List.map_cons, List.sum_cons] at ih ⊢
      rw [ih]
      omega



theorem tally_insert_agent (query x name : String) :
    ∀ (kws : List String) (m : List (String × List String)),
      tally (kws.foldl (fun m kw => insertKw m kw name) m) query x
        = tally m query x
          + (if x = name then kws.countP (fun kw => pyContains (pyLower query) kw) else 0) := by
  intro kws
  induction kws with
  | nil => intro m; simp
  | cons kw rest ih =>
    intro m
    simp only [List.foldl_cons, ih, tally_insertKw, List.countP_cons]
    by_cases hx : x = name
    · simp only [if_pos hx]
      by_cases hm : pyContains (pyLower query) kw = true
      · simp [hm]; omega
      · simp [hm]
    · simp [hx]

theorem tally_keyword_mapping (query x : String) :
    ∀ (net : Network) (m : List (String × List String)),
      tally ((net.foldl (fun m p =>
          match p.2 with
          | none => m
          | some card => (pyDedup (agentKeywords p.1 card)).foldl
              (fun m kw => insertKw m kw p.1) m) m)) query x
        = tally m query x + netScore net query x := by
  intro net
  induction net with
  | nil => intro m; simp [netScore]
  | cons p rest ih =>
    intro m
    simp only [List.foldl_cons, netScore, List.map_cons, List.sum_cons]
    cases hp : p.2 with
    | none =>
      rw [ih]
      simp [netScore, specScoreOpt]
    | some card =>
      rw [ih, tally_insert_agent]
      simp only [netScore]
      by_cases hx : p.1 = x
      · rw [if_pos hx, if_pos hx.symm]
        simp [specScoreOpt, specScore, hp, hx]
        omega
      · rw [if_neg hx, if_neg (fun h => hx h.symm)]
        omega



theorem scoreOf_agent_scores (net : Network) (query x : String) :
    scoreOf (agent_scores net query) x = netScore net query x := by
  unfold agent_scores keyword_mapping
  rw [scoreOf_scorefold, tally_keyword_mapping]
  simp [tally, scoreOf]

theorem netScore_not_mem (query x : String) :
    ∀ net : Network, x ∉ net.map Prod.fst → netScore net query x = 0 := by
  intro net
  induction net with
  | nil => simp [netScore]
  | cons p rest ih =>
    intro hx
    simp only [List.map_cons, List.mem_cons, not_or] at hx
    simp only [netScore, List.map_cons, List.sum_cons]
    rw [if_neg (fun h => hx.1 h.symm)]
    simpa [netScore] using ih hx.2

theorem netScore_eq_spec (query : String) :
    ∀ net : Network, (net.map Prod.fst).Nodup →
      ∀ p ∈ net, netScore net query p.1 = specScoreOpt query p.1 p.2 := by
  intro net
  induction net with
  | nil => simp
  | cons q rest ih =>
    intro hnd p hp
    simp only [List.map_cons, List.nodup_cons] at hnd
    simp only [netScore, List.map_cons, List.sum_cons]
    rcases List.mem_cons.mp hp with rfl | hmem
    · rw [if_pos rfl]
      have h0 : netScore rest query p.1 = 0 := netScore_not_mem query p.1 rest hnd.1
      simp only [netScore] at h0
      omega
    · have hne : q.1 ≠ p.1 := by
        intro h
        exact hnd.1 (h ▸ (List.mem_map.mpr ⟨p, hmem, rfl⟩))
      rw [if_neg hne]
      have := ih hnd.2 p hmem
      simp only [netScore] at this
      omega

theorem netScore_zero_of_all_zero (net : Network) (query : String)
    (h : ∀ p ∈ net, specScoreOpt query p.1 p.2 = 0) (x : String) :
    netScore net query x = 0 := by
  induction net with
  | nil => simp [netScore]
  | cons p rest ih =>
    simp only [netScore, List.map_cons, List.sum_cons]
    have h1 : specScoreOpt query p.1 p.2 = 0 := h p (List.mem_cons_self p rest)
    have h2 : netScore rest query x = 0 :=
      ih (fun q hq => h q (List.mem_cons_of_mem p hq))
    simp only [netScore] at h2
    by_cases hx : p.1 = x
    · rw [if_pos hx]; omega
    · rw [if_neg hx]; omega



theorem addScore_pos (a : String) :
    ∀ sc : List (String × Nat), (∀ e ∈ sc, 1 ≤ e.2) → ∀ e ∈ addScore sc a, 1 ≤ e.2 := by
  intro sc
  induction sc with
  | nil => intro _ e he; simp [addScore] at he; simp [he]
  | cons f rest ih =>
    intro h e he
    simp only [addScore] at he
    by_cases hf : f.1 = a
    · rw [if_pos hf] at he
      rcases List.mem_cons.mp he with rfl | hmem
      · simp
      · exact h e (List.mem_cons_of_mem f hmem)
    · rw [if_neg hf] at he
      rcases List.mem_cons.mp he with rfl | hmem
      · exact h _ (List.mem_cons_self _ _)
      · exact ih (fun g hg => h g (List.mem_cons_of_mem f hg)) e hmem

theorem foldl_addScore_pos (ags : List String) :
    ∀ sc : List (String × Nat), (∀ e ∈ sc, 1 ≤ e.2) →
      ∀ e ∈ ags.foldl addScore sc, 1 ≤ e.2 := by
  induction ags with
  | nil => intro sc h; simpa using h
  | cons a rest ih =>
    intro sc h
    simp only [List.foldl_cons]
    exact ih (addScore sc a) (addScore_pos a sc h)

theorem agent_scores_pos (net : Network) (query : String) :
    ∀ e ∈ agent_scores net query, 1 ≤ e.2 := by
  unfold agent_scores
  generalize keyword_mapping net = m
  have main : ∀ (m : List (String × List String)) (sc : List (String × Nat)),
      (∀ e ∈ sc, 1 ≤ e.2) →
      ∀ e ∈ m.foldl (fun sc e =>
          if pyContains (pyLower query) e.1 then e.2.foldl addScore sc else sc) sc,
        1 ≤ e.2 := by
    intro m
    induction m with
    | nil => intro sc h; simpa using h
    | cons f rest ih =>
      intro sc h
      simp only [List.foldl_cons]
      by_cases hf : pyContains (pyLower query) f.1 = true
      · rw [if_pos hf]
        exact ih _ (foldl_addScore_pos f.2 sc h)
      · rw [if_neg hf]
        exact ih _ h
  exact main m [] (by simp)

theorem scoreOf_pos_of_mem (e : String × Nat) :
    ∀ sc : List (String × Nat), (∀ g ∈ sc, 1 ≤ g.2) → e ∈ sc → 1 ≤ scoreOf sc e.1 := by
  intro sc
  induction sc with
  | nil => intro _ he; cases he
  | cons f rest ih =>
    intro h he
    simp only [scoreOf]
    by_cases hf : f.1 = e.1
    · rw [if_pos hf]
      exact h f (List.mem_cons_self f rest)
    · rw [if_neg hf]
      rcases List.mem_cons.mp he with rfl | hmem
      · exact absurd rfl hf
      · exact ih (fun g hg => h g (List.mem_cons_of_mem f hg)) hmem

theorem agent_scores_key_mem (net : Network) (query : String) (e : String × Nat)
    (he : e ∈ agent_scores net query) : e.1 ∈ net.map Prod.fst := by
  by_contra hx
  have h0 : netScore net query e.1 = 0 := netScore_not_mem query e.1 net hx
  have h1 : 1 ≤ scoreOf (agent_scores net query) e.1 :=
    scoreOf_pos_of_mem e (agent_scores net query) (agent_scores_pos net query) he
  rw [scoreOf_agent_scores, h0] at h1
  omega

theorem pyMaxAux (xs : List (String × Nat)) :
    ∀ x : String × Nat,
      (xs.foldl (fun best y => if best.2 < y.2 then y else best) x) ∈ x :: xs ∧
      (∀ e ∈ x :: xs, e.2 ≤ (xs.foldl (fun best y => if best.2 < y.2 then y else best) x).2) ∧
      (x :: xs).find?
          (fun e => decide ((xs.foldl (fun best y => if best.2 < y.2 then y else best) x).2 ≤ e.2))
        = some (xs.foldl (fun best y => if best.2 < y.2 then y else best) x) := by
  induction xs with
  | nil =>
    intro x
    refine ⟨by simp, by simp, ?_⟩
    simp [List.find?]
  | cons y ys ih =>
    intro x
    simp only [List.foldl_cons]
    by_cases hxy : x.2 < y.2
    · have hred : (if x.2 < y.2 then y else x) = y := if_pos hxy
      simp only [hred]
      obtain ⟨m1, m2, m3⟩ := ih y
      refine ⟨?_, ?_, ?_⟩
      · rcases List.mem_cons.mp m1 with h | h
        · rw [h]; exact List.mem_cons_of_mem x (List.mem_cons_self y ys)
        · exact List.mem_cons_of_mem x (List.mem_cons_of_mem y h)
      · intro e he
        rcases List.mem_cons.mp he with rfl | hmem
        · have := m2 y (List.mem_cons_self y ys)
          omega
        · exact m2 e hmem
      · have hb := m2 y (List.mem_cons_self y ys)
        rw [List.find?_cons_of_neg, m3]
        simp only [decide_eq_true_eq]
        omega
    · have hred : (if x.2 < y.2 then y else x) = x := if_neg hxy
      simp only [hred]
      obtain ⟨m1, m2, m3⟩ := ih x
      refine ⟨?_, ?_, ?_⟩
      · rcases List.mem_cons.mp m1 with h | h
        · rw [h]; exact List.mem_cons_self x (y :: ys)
        · exact List.mem_cons_of_mem x (List.mem_cons_of_mem y h)
      · intro e he
        rcases List.mem_cons.mp he with rfl | hmem
        · exact m2 e (List.mem_cons_self e ys)
        · rcases List.mem_cons.mp hmem with rfl | hmem2
          · have := m2 x (List.mem_cons_self x ys)
            omega
          · exact m2 e (List.mem_cons_of_mem x hmem2)
      · by_cases hpx : (ys.foldl (fun best y => if best.2 < y.2 then y else best) x).2 ≤ x.2
        · have hfx := List.find?_cons_of_pos (p := fun e =>
            decide ((ys.foldl (fun best y => if best.2 < y.2 then y else best) x).2 ≤ e.2))
            (y :: ys) (by simpa using hpx)
          rw [hfx]
          have hfx2 := List.find?_cons_of_pos (p := fun e =>
            decide ((ys.foldl (fun best y => if best.2 < y.2 then y else best) x).2 ≤ e.2))
            ys (by simpa using hpx)
          rw [hfx2] at m3
          exact m3
        · have hx2 : x.2 < (ys.foldl (fun best y => if best.2 < y.2 then y else best) x).2 := by omega
          have hy2 : y.2 ≤ x.2 := by omega
          rw [List.find?_cons_of_neg, List.find?_cons_of_neg]
          · rw [List.find?_cons_of_neg] at m3
            · exact m3
            · simp only [decide_eq_true_eq]; omega
          · simp only [decide_eq_true_eq]; omega
          · simp only [decide_eq_true_eq]; omega



theorem pyChoice_mem (l : List String) (r : Nat) (h : l ≠ []) :
    ∃ a, pyChoice l r = some a ∧ a ∈ l := by
  cases l with
  | nil => exact absurd rfl h
  | cons x xs =>
    refine ⟨(x :: xs).getD (r % (x :: xs).length) x, rfl, ?_⟩
    have hlt : r % (x :: xs).length < (x :: xs).length := Nat.mod_lt _ (by simp)
    rw [List.getD_eq_getElem (x :: xs) x hlt]
    exact List.getElem_mem hlt

theorem claim_C3_keyword_routing (net : Network) (query : String) (r : Nat)
    (hnd : (net.map Prod.fst).Nodup) :
    (0 ≤ (route_query net query r).2 ∧ (route_query net query r).2 ≤ 1) ∧
    (∀ p ∈ net, scoreOf (agent_scores net query) p.1 = specScoreOpt query p.1 p.2) ∧
    (agent_scores net query = [] ↔ ∀ p ∈ net, specScoreOpt query p.1 p.2 = 0) ∧
    (∀ b, pyMax (agent_scores net query) = some b →
        route_query net query r = (some b.1, min ((b.2 : ℚ) / 10) 1) ∧
        b ∈ agent_scores net query ∧
        (∀ e ∈ agent_scores net query, e.2 ≤ b.2) ∧
        (agent_scores net query).find? (fun e => decide (b.2 ≤ e.2)) = some b ∧
        b.1 ∈ net.map Prod.fst) ∧
    (agent_scores net query = [] → net ≠ [] →
        ∃ a, a ∈ net.map Prod.fst ∧ route_query net query r = (some a, 1 / 10) ∧
          pyChoice (net.map Prod.fst) r = some a) ∧
    (net = [] → route_query net query r = (none, 0)) := by
  have hscore : ∀ p ∈ net, scoreOf (agent_scores net query) p.1 = specScoreOpt query p.1 p.2 := by
    intro p hp
    rw [scoreOf_agent_scores]
    exact netScore_eq_spec query net hnd p hp
  have hmaxcase : ∀ b, pyMax (agent_scores net query) = some b →
      route_query net query r = (some b.1, min ((b.2 : ℚ) / 10) 1) ∧
      b ∈ agent_scores net query ∧
      (∀ e ∈ agent_scores net query, e.2 ≤ b.2) ∧
      (agent_scores net query).find? (fun e => decide (b.2 ≤ e.2)) = some b ∧
      b.1 ∈ net.map Prod.fst := by
    intro b hb
    have hroute : route_query net query r = (some b.1, min ((b.2 : ℚ) / 10) 1) := by
      unfold route_query
      rw [hb]
    cases hsc : agent_scores net query with
    | nil => rw [hsc] at hb; simp [pyMax] at hb
    | cons x xs =>
      rw [hsc] at hb
      simp only [pyMax, Option.some.injEq] at hb
      obtain ⟨m1, m2, m3⟩ := pyMaxAux xs x
      rw [hb] at m1 m2 m3
      refine ⟨hroute, m1, m2, m3, ?_⟩
      exact agent_scores_key_mem net query b (by rw [hsc]; exact m1)

  have hiff : agent_scores net query = [] ↔ ∀ p ∈ net, specScoreOpt query p.1 p.2 = 0 := by
    constructor
    · intro h p hp
      have := hscore p hp
      rw [h] at this
      simpa [scoreOf] using this.symm
    · intro hall
      cases hsc : agent_scores net query with
      | nil => rfl
      | cons e rest =>
        have hmem : e ∈ agent_scores net query := by rw [hsc]; exact List.mem_cons_self _ _
        have h1 : 1 ≤ scoreOf (agent_scores net query) e.1 :=
          scoreOf_pos_of_mem e (agent_scores net query) (agent_scores_pos net query) hmem
        have h0 : netScore net query e.1 = 0 :=
          netScore_zero_of_all_zero net query hall e.1
        rw [scoreOf_agent_scores, h0] at h1
        omega
  have hrandom : agent_scores net query = [] → net ≠ [] →
      ∃ a, a ∈ net.map Prod.fst ∧ route_query net query r = (some a, 1 / 10) ∧
        pyChoice (net.map Prod.fst) r = some a := by
    intro hsc hne
    have hnames : net.map Prod.fst ≠ [] := by
      cases net with
      | nil => exact absurd rfl hne
      | cons p rest => simp
    obtain ⟨a, ha, hamem⟩ := pyChoice_mem (net.map Prod.fst) r hnames
    refine ⟨a, hamem, ?_, ha⟩
    unfold route_query
    rw [hsc]
    simp only [pyMax]
    rw [ha]
  have hempty : net = [] → route_query net query r = (none, 0) := by
    intro h
    subst h
    rfl
  refine ⟨?_, hscore, hiff, hmaxcase, hrandom, hempty⟩
  cases hm : pyMax (agent_scores net query) with
  | some b =>
    have := (hmaxcase b hm).1
    rw [this]
    constructor
    · exact le_min (by positivity) (by norm_num)
    · exact min_le_right _ _
  | none =>
    unfold route_query
    rw [hm]
    cases hc : pyChoice (net.map Prod.fst) r with
    | some a =>
      simp only [hc]
      norm_num
    | none => simp [hc]

/-- Witness for C3 on `exampleNet` with query `"the weather"` and oracle
index `0`: the agent names are distinct and the full routing conjunction
holds there (the query matches exactly the keyword `"weather"`). -/
theorem claim_C3_keyword_routing_witness :
    ((exampleNet.map Prod.fst).Nodup) ∧
    ((0 ≤ (route_query exampleNet "the weather" 0).2 ∧
      (route_query exampleNet "the weather" 0).2 ≤ 1) ∧
     (∀ p ∈ exampleNet,
        scoreOf (agent_scores exampleNet "the weather") p.1
          = specScoreOpt "the weather" p.1 p.2) ∧
     (agent_scores exampleNet "the weather" = []
        ↔ ∀ p ∈ exampleNet, specScoreOpt "the weather" p.1 p.2 = 0) ∧
     (∀ b, pyMax (agent_scores exampleNet "the weather") = some b →
        route_query exampleNet "the weather" 0 = (some b.1, min ((b.2 : ℚ) / 10) 1) ∧
        b ∈ agent_scores exampleNet "the weather" ∧
        (∀ e ∈ agent_scores exampleNet "the weather", e.2 ≤ b.2) ∧
        (agent_scores exampleNet "the weather").find? (fun e => decide (b.2 ≤ e.2)) = some b ∧
        b.1 ∈ exampleNet.map Prod.fst) ∧
     (agent_scores exampleNet "the weather" = [] → exampleNet ≠ [] →
        ∃ a, a ∈ exampleNet.map Prod.fst ∧
          route_query exampleNet "the weather" 0 = (some a, 1 / 10) ∧
          pyChoice (exampleNet.map Prod.fst) 0 = some a) ∧
     (exampleNet = [] → route_query exampleNet "the weather" 0 = (none, 0))) :=
  ⟨by decide, claim_C3_keyword_routing exampleNet "the weather" 0 (by decide)⟩

/-! ## Agent network: claims C6 and C7 -/

theorem dispatchTo_obs (send : String → String → Except String Response)
    (a : String) (c : ℚ) (b : Bool) (q : String) :
    (dispatchTo send a c b q).routerConsulted = b ∧
    (dispatchTo send a c b q).dispatched = [(a, q)] ∧
    (dispatchTo send a c b q).confidence = some c := by
  unfold dispatchTo
  cases send a q with
  | ok resp => cases resp <;> simp
  | error e => simp

/-- Counterexample to claim C6 as stated: the agent named `""` is
registered in the directory `[""]` and `target_agent = some ""` is
supplied, yet `process_query` consults the router (Python evaluates
`if target_agent:` by truthiness, so an empty-string target falls through
to the routing branch) and does not use confidence 1.0. -/
theorem claim_C6_counterexample :
    (process_query [""] (some (fun _ => (some "", 0)))
        (fun _ _ => .ok (.textContent "resp")) "q" (some "")).routerConsulted = true ∧
    (process_query [""] (some (fun _ => (some "", 0)))
        (fun _ _ => .ok (.textContent "resp")) "q" (some "")).confidence ≠ some 1 := by
  constructor
  · rfl
  · simp [process_query, optTruthy, network_route_query, dispatchTo]

/-- Claim C6 as amended: for a non-empty agent directory, when a
*non-empty* `target_agent` string is supplied and registered,
`process_query` dispatches directly to that agent with confidence `1.0`
and never consults the router; when a non-empty `target_agent` is supplied
but not registered, it returns the fixed agent-not-found error string
without dispatching to any agent. -/
theorem claim_C6_explicit_target (agents : List String)
    (router? : Option (String → Option String × ℚ))
    (send : String → String → Except String Response)
    (query t : String) (ht : t ≠ "") (hne : agents ≠ []) :
    (agents.contains t = true →
      (process_query agents router? send query (some t)).routerConsulted = false ∧
      (process_query agents router? send query (some t)).dispatched = [(t, query)] ∧
      (process_query agents router? send query (some t)).confidence = some 1) ∧
    (agents.contains t = false →
      process_query agents router? send query (some t) =
        ⟨"Error: Agent \x27" ++ t ++ "\x27 not found in network", false, [], none⟩) := by
  have htr : optTruthy (some t) = true := by simp [optTruthy, ht]
  constructor
  · intro hreg
    unfold process_query
    rw [if_neg hne, if_pos htr]
    simp only [Option.getD_some]
    rw [if_pos hreg]
    exact dispatchTo_obs send t 1 false query
  · intro hnreg
    unfold process_query
    rw [if_neg hne, if_pos htr]
    simp only [Option.getD_some]
    rw [if_neg (by rw [hnreg]; simp)]

/-- Witness for the amended C6 at directory `["a", "b"]` and target
`"a"`: direct dispatch with confidence `1.0`, router not consulted. -/
theorem claim_C6_explicit_target_witness :
    ("a" : String) ≠ "" ∧ (["a", "b"] : List String) ≠ [] ∧
    (((["a", "b"] : List String).contains "a" = true →
      (process_query ["a", "b"] none (fun _ _ => .ok (.textContent "r")) "q" (some "a")).routerConsulted = false ∧
      (process_query ["a", "b"] none (fun _ _ => .ok (.textContent "r")) "q" (some "a")).dispatched = [("a", "q")] ∧
      (process_query ["a", "b"] none (fun _ _ => .ok (.textContent "r")) "q" (some "a")).confidence = some 1) ∧
     ((["a", "b"] : List String).contains "a" = false →
      process_query ["a", "b"] none (fun _ _ => .ok (.textContent "r")) "q" (some "a") =
        ⟨"Error: Agent \x27a\x27 not found in network", false, [], none⟩)) :=
  ⟨by decide, by decide,
   claim_C6_explicit_target ["a", "b"] none (fun _ _ => .ok (.textContent "r")) "q" "a"
     (by decide) (by decide)⟩

/-- Claim C7: against an empty agent directory the keyword router returns
`(none, 0)`, the network-level router wrapper returns `(none, 0)` without
consulting any router, and `process_query` returns the fixed
no-agents-available error string as a value, with no dispatch. -/
theorem claim_C7_empty_directory (query : String) (r : Nat)
    (router? : Option (String → Option String × ℚ))
    (send : String → String → Except String Response)
    (target? : Option String) :
    route_query ([] : Network) query r = (none, 0) ∧
    network_route_query [] router? query = ((none, 0), false) ∧
    process_query [] router? send query target? =
      ⟨"Error: No agents available in the network", false, [], none⟩ :=
  ⟨rfl, rfl, rfl⟩

/-! ## AI router: lemmas and claims C8 and C10 -/

theorem cacheLookup_insert (q : String) (v : String × ℚ) :
    ∀ c : List (String × (String × ℚ)), cacheLookup (cacheInsert c q v) q = some v := by
  intro c
  induction c with
  | nil => simp [cacheInsert, cacheLookup, List.find?]
  | cons e rest ih =>
    simp only [cacheInsert]
    by_cases he : e.1 = q
    · rw [if_pos he]
      simp only [cacheLookup]
      rw [List.find?_cons_of_pos _ (by simpa using he)]
    · rw [if_neg he]
      simp only [cacheLookup]
      rw [List.find?_cons_of_neg _ (by simpa using he)]
      simpa [cacheLookup] using ih

theorem ai_route_hit (agents : List String)
    (classify : String → Except String (Option String × ℚ)) (r : Nat)
    (st : AIRouterState) (query : String) (v : String × ℚ)
    (hv : cacheLookup st.cache query = some v) :
    ai_route_query agents classify r st query true = ((some v.1, v.2), st, ⟨false, false⟩) := by
  unfold ai_route_query
  simp only [if_true, hv]

theorem ai_route_shape (agents : List String)
    (classify : String → Except String (Option String × ℚ)) (r : Nat)
    (st : AIRouterState) (query : String)
    (hmiss : cacheLookup st.cache query = none) :
    (∃ a c obs, ai_route_query agents classify r st query true =
        ((some a, c), { st with cache := cacheInsert st.cache query (a, c) }, obs)) ∨
    (∃ obs, ai_route_query agents classify r st query true = ((none, 0), st, obs)) := by
  unfold ai_route_query
  simp only [if_true, hmiss]
  by_cases hav : st.available = false
  · rw [if_pos hav]
    cases hc : pyChoice agents r with
    | some a => exact Or.inl ⟨a, 1 / 10, ⟨false, true⟩, rfl⟩
    | none => exact Or.inr ⟨⟨false, false⟩, rfl⟩
  · rw [if_neg hav]
    cases hcl : classify query with
    | ok res =>
      obtain ⟨nm, conf⟩ := res
      cases nm with
      | some n =>
        simp only []
        by_cases hn : agents.contains n = true
        · rw [if_pos hn]
          exact Or.inl ⟨n, conf, ⟨true, false⟩, rfl⟩
        · rw [if_neg hn]
          cases agents with
          | nil => exact Or.inr ⟨⟨true, false⟩, rfl⟩
          | cons first rest => exact Or.inl ⟨first, 1 / 10, ⟨true, false⟩, rfl⟩
      | none =>
        simp only []
        cases agents with
        | nil => exact Or.inr ⟨⟨true, false⟩, rfl⟩
        | cons first rest => exact Or.inl ⟨first, 1 / 10, ⟨true, false⟩, rfl⟩
    | error e =>
      simp only []
      cases hc : pyChoice agents r with
      | some a => exact Or.inl ⟨a, 1 / 10, ⟨true, true⟩, rfl⟩
      | none => exact Or.inr ⟨⟨true, false⟩, rfl⟩



/-- Claim C8: on a non-empty agent directory and a cache miss,
`AIRouter.route_query` never propagates a classifier failure: when the
external classifier is unavailable (`st.available = false`) or raises, it
returns the oracle-chosen (`random.choice`) registered agent with
confidence `0.1`; when the classifier produces no agent name or names an
agent not in the directory, it instead returns the *first* registered
agent (independent of the random oracle) with confidence `0.1`. -/
theorem claim_C8_ai_router_fallbacks (first : String) (rest agents : List String)
    (hag : agents = first :: rest)
    (classify : String → Except String (Option String × ℚ)) (r : Nat)
    (st : AIRouterState) (query : String) (use_cache : Bool)
    (hmiss : use_cache = false ∨ cacheLookup st.cache query = none) :
    (st.available = false →
      ∃ a, a ∈ agents ∧ pyChoice agents r = some a ∧
        (ai_route_query agents classify r st query use_cache).1 = (some a, 1 / 10)) ∧
    (st.available = true → ∀ e, classify query = .error e →
      ∃ a, a ∈ agents ∧ pyChoice agents r = some a ∧
        (ai_route_query agents classify r st query use_cache).1 = (some a, 1 / 10)) ∧
    (st.available = true → ∀ conf, classify query = .ok (none, conf) →
      (ai_route_query agents classify r st query use_cache).1 = (some first, 1 / 10)) ∧
    (st.available = true → ∀ n conf, classify query = .ok (some n, conf) → n ∉ agents →
      (ai_route_query agents classify r st query use_cache).1 = (some first, 1 / 10)) := by
  have hcache : (if use_cache then cacheLookup st.cache query else none) = none := by
    rcases hmiss with h | h
    · rw [h]; rfl
    · cases use_cache <;> simp [h]
  obtain ⟨a0, ha0, hmem0⟩ := pyChoice_mem agents r (by rw [hag]; simp)
  refine ⟨?_, ?_, ?_, ?_⟩
  · intro hav
    refine ⟨a0, hmem0, ha0, ?_⟩
    unfold ai_route_query
    simp only [hcache, if_pos hav, ha0]
  · intro hav e hcl
    refine ⟨a0, hmem0, ha0, ?_⟩
    unfold ai_route_query
    simp only [hcache, if_neg (by rw [hav]; simp : ¬ st.available = false), hcl, ha0]
  · intro hav conf hcl
    unfold ai_route_query
    simp only [hcache, if_neg (by rw [hav]; simp : ¬ st.available = false), hcl]
    subst hag
    rfl
  · intro hav n conf hcl hn
    unfold ai_route_query
    simp only [hcache, if_neg (by rw [hav]; simp : ¬ st.available = false), hcl]
    rw [if_neg (by simpa using hn)]
    subst hag
    rfl

/-- Claim C10: with `use_cache = true`, every `AIRouter.route_query` call
returning a non-`None` agent stores its `(agent, confidence)` decision in
the cache under the exact query string, so a second call with the same
query — even with a different classifier and a different random oracle —
returns the identical decision while invoking neither the classifier nor
the random source; a `(none, _)` result leaves the state unchanged and is
never cached. -/
theorem claim_C10_cache_determinism (agents : List String)
    (classify classify' : String → Except String (Option String × ℚ)) (r r' : Nat)
    (st : AIRouterState) (query : String) :
    (∀ a c st' obs, ai_route_query agents classify r st query true = ((some a, c), st', obs) →
        cacheLookup st'.cache query = some (a, c)) ∧
    (∀ c st' obs, ai_route_query agents classify r st query true = ((none, c), st', obs) →
        st' = st) ∧
    (∀ a c st' obs, ai_route_query agents classify r st query true = ((some a, c), st', obs) →
        ai_route_query agents classify' r' st' query true = ((some a, c), st', ⟨false, false⟩)) := by
  cases hlk : cacheLookup st.cache query with
  | some v =>
    have hhit := ai_route_hit agents classify r st query v hlk
    have part1 : ∀ a c st' obs,
        ai_route_query agents classify r st query true = ((some a, c), st', obs) →
        cacheLookup st'.cache query = some (a, c) := by
      intro a c st' obs heq
      have h := hhit.symm.trans heq
      simp only [Prod.mk.injEq, Option.some.injEq] at h
      obtain ⟨⟨ha, hc⟩, hst, hobs⟩ := h
      rw [← hst, hlk, ← ha, ← hc]
    refine ⟨part1, ?_, ?_⟩
    · intro c st' obs heq
      have h := hhit.symm.trans heq
      simp only [Prod.mk.injEq] at h
      exact h.2.1.symm
    · intro a c st' obs heq
      have h := hhit.symm.trans heq
      simp only [Prod.mk.injEq, Option.some.injEq] at h
      obtain ⟨⟨ha, hc⟩, hst, hobs⟩ := h
      rw [← hst, ← ha, ← hc]
      exact ai_route_hit agents classify' r' st query v hlk
  | none =>
    rcases ai_route_shape agents classify r st query hlk with
      ⟨a0, c0, obs0, h0⟩ | ⟨obs0, h0⟩
    · have part1 : ∀ a c st' obs,
          ai_route_query agents classify r st query true = ((some a, c), st', obs) →
          cacheLookup st'.cache query = some (a, c) := by
        intro a c st' obs heq
        have h := h0.symm.trans heq
        simp only [Prod.mk.injEq, Option.some.injEq] at h
        obtain ⟨⟨ha, hc⟩, hst, hobs⟩ := h
        rw [← hst, ← ha, ← hc]
        exact cacheLookup_insert query (a0, c0) st.cache
      refine ⟨part1, ?_, ?_⟩
      · intro c st' obs heq
        have h := h0.symm.trans heq
        simp only [Prod.mk.injEq] at h
        exact absurd h.1.1 (by simp)
      · intro a c st' obs heq
        have hlk2 := part1 a c st' obs heq
        have h := h0.symm.trans heq
        simp only [Prod.mk.injEq, Option.some.injEq] at h
        obtain ⟨⟨ha, hc⟩, hst, hobs⟩ := h
        exact ai_route_hit agents classify' r' st' query (a, c) hlk2
    · refine ⟨?_, ?_, ?_⟩
      · intro a c st' obs heq
        have h := h0.symm.trans heq
        simp only [Prod.mk.injEq] at h
        exact absurd h.1.1 (by simp)
      · intro c st' obs heq
        have h := h0.symm.trans heq
        simp only [Prod.mk.injEq] at h
        exact h.2.1.symm
      · intro a c st' obs heq
        have h := h0.symm.trans heq
        simp only [Prod.mk.injEq] at h
        exact absurd h.1.1 (by simp)

/-- Witness for C8 at the one-agent directory `["x"]` with an unavailable
classifier and an empty cache: the fallback conjunction holds there. -/
theorem claim_C8_ai_router_fallbacks_witness :
    (["x"] : List String) = "x" :: [] ∧
    (true = false ∨ cacheLookup (⟨false, []⟩ : AIRouterState).cache "q" = none) ∧
    (((⟨false, []⟩ : AIRouterState).available = false →
      ∃ a, a ∈ ["x"] ∧ pyChoice ["x"] 0 = some a ∧
        (ai_route_query ["x"] (fun _ => .error "down") 0 ⟨false, []⟩ "q" true).1
          = (some a, 1 / 10)) ∧
     ((⟨false, []⟩ : AIRouterState).available = true →
      ∀ e, (fun _ : String => (.error "down" : Except String (Option String × ℚ))) "q" = .error e →
      ∃ a, a ∈ ["x"] ∧ pyChoice ["x"] 0 = some a ∧
        (ai_route_query ["x"] (fun _ => .error "down") 0 ⟨false, []⟩ "q" true).1
          = (some a, 1 / 10)) ∧
     ((⟨false, []⟩ : AIRouterState).available = true →
      ∀ conf, (fun _ : String => (.error "down" : Except String (Option String × ℚ))) "q" = .ok (none, conf) →
      (ai_route_query ["x"] (fun _ => .error "down") 0 ⟨false, []⟩ "q" true).1
        = (some "x", 1 / 10)) ∧
     ((⟨false, []⟩ : AIRouterState).available = true →
      ∀ n conf, (fun _ : String => (.error "down" : Except String (Option String × ℚ))) "q" = .ok (some n, conf) →
      n ∉ (["x"] : List String) →
      (ai_route_query ["x"] (fun _ => .error "down") 0 ⟨false, []⟩ "q" true).1
        = (some "x", 1 / 10))) :=
  ⟨rfl, Or.inr rfl,
   claim_C8_ai_router_fallbacks "x" [] ["x"] rfl (fun _ => .error "down") 0
     ⟨false, []⟩ "q" true (Or.inr rfl)⟩

/-- Witness for C10: after a first call (unavailable classifier, empty
cache) cached `("x", 1/10)` for query `"q"`, a second call with a
different classifier and a different oracle returns the identical decision
from the cache, invoking neither the classifier nor the random source. -/
theorem claim_C10_cache_determinism_witness :
    ai_route_query ["x"] (fun _ => .error "e2") 5
        ⟨false, [("q", ("x", 1 / 10))]⟩ "q" true
      = ((some "x", 1 / 10), ⟨false, [("q", ("x", 1 / 10))]⟩, ⟨false, false⟩) :=
  (claim_C10_cache_determinism ["x"] (fun _ => .error "e1") (fun _ => .error "e2")
      0 5 ⟨false, []⟩ "q").2.2
    "x" (1 / 10) ⟨false, [("q", ("x", 1 / 10))]⟩ ⟨false, true⟩ rfl

end A2A
